import Mathlib

/-!
Verification of the PII Guard Lite detection/anonymization engine
(`extension-lite/src/pii/`): a shallow embedding of `anonymizer.js`,
`detector.js`, `regex-patterns.js` and `validators.js`, followed by theorems
about the embedded definitions.

Conventions of the embedding:
* JS strings are modelled as `List Char`; all texts in the claims are ASCII,
  so character offsets coincide with JS UTF-16 code-unit offsets.
* JS numbers holding confidence scores are modelled as `ℚ`; all score
  arithmetic in the source (comparisons, `Math.min`, adding the `0.1` context
  boost to base scores with at most two decimals) is exact on these values,
  so no floating-point rounding is observable.
* The JS regular-expression engine is a browser built-in, not repository
  code.  Where a claim quantifies over "each regex match" the match
  enumeration is an explicit parameter `M`; where a claim needs the language
  of a concrete pattern, the pattern's literal is transcribed into a small
  regex syntax `RE` with an inductive matching relation `Matches`.
-/

namespace PiiGuard

/-- JS `text.substring(a, b)` for `a ≤ b`, both clipped to the text length:
the characters of `text` with indices in `[a, b)`. -/
def jsSubstring (text : List Char) (a b : Nat) : List Char :=
  (text.take b).drop a

/-- JS `Math.min` on the exact rationals modelling JS score values. -/
def jsMin (a b : ℚ) : ℚ := if a ≤ b then a else b

/-- Rational addition, written through `mkRat` so that the kernel can
evaluate it on concrete scores (`Rat.add` and rational literals such as
`0.85` are `@[irreducible]` in this library version); `qAdd_eq_add` below
shows it is exactly `+` on `ℚ`.  Score constants are likewise written
`mkRat m n` throughout, e.g. `mkRat 85 100` for the source literal `0.85`. -/
def qAdd (a b : ℚ) : ℚ := mkRat (a.num * b.den + b.num * a.den) (a.den * b.den)

/-- `anonymizer.js` — `DetectedEntity`: one detection candidate.
Field `stop` embeds the source's `end` (a Lean keyword): half-open character
offsets `[start, stop)` into the source text. -/
structure DetectedEntity where
  entity_type : String
  start : Nat
  stop : Nat
  score : ℚ
  original_text : List Char
  deriving DecidableEq, Repr

/-- `anonymizer.js` `resolveOverlaps`, lines 27-30: the JS sort comparator
`(a, b) => a.start - b.start`, falling back to `b.score - a.score`.
`a` may come before `b` exactly when the comparator is ≤ 0:
start ascending, ties by score descending. -/
def entLE (a b : DetectedEntity) : Bool :=
  a.start < b.start || (a.start == b.start && decide (b.score ≤ a.score))

/-- The sort comparator as a relation, for sorting.  JS `Array.sort` is a
stable sort with respect to the comparator; `List.insertionSort` is also
stable (an element is inserted before the first element it ties with that
originated later), so both produce the same list. -/
def entRel (a b : DetectedEntity) : Prop := entLE a b = true

instance : DecidableRel entRel := fun a b => instDecidableEqBool (entLE a b) true

/-- `anonymizer.js` `resolveOverlaps`, lines 32-46: the left-to-right sweep.
`prev` is the last accepted entity (`result[result.length - 1]`); entities
before it have been committed.  On overlap (`curr.start < prev.end`) the
current candidate replaces `prev` iff it has strictly higher score, or equal
score and strictly longer span (line 39); otherwise `prev` is committed and
`curr` becomes the new last accepted. -/
def sweep (prev : DetectedEntity) : List DetectedEntity → List DetectedEntity
  | [] => [prev]
  | curr :: rest =>
    if curr.start < prev.stop then
      if curr.score > prev.score ∨
          (curr.score = prev.score ∧ curr.stop - curr.start > prev.stop - prev.start) then
        sweep curr rest
      else
        sweep prev rest
    else
      prev :: sweep curr rest

/-- `anonymizer.js` `resolveOverlaps` (lines 23-49): remove overlapping
entities, keeping the higher-scoring one (ties: the longer match). -/
def resolveOverlaps (entities : List DetectedEntity) : List DetectedEntity :=
  if entities.length ≤ 1 then entities
  else
    match List.insertionSort entRel entities with
    | [] => []
    | x :: xs => sweep x xs

/-- `anonymizer.js` — a manifest entry as built in `anonymize` (lines 73-80).
`stop` embeds the source's `end` field. -/
structure ManifestEntry where
  entity_type : String
  start : Nat
  stop : Nat
  score : ℚ
  original_text : List Char
  new_value : List Char
  deriving DecidableEq, Repr

/-- The result shape `{ text, entities, count }` returned by `anonymize`. -/
structure AnonymizeResult where
  text : List Char
  entities : List ManifestEntry
  count : Nat
  deriving DecidableEq, Repr

/-- The replacement token `` `<${e.entity_type}>` `` (`anonymizer.js` line 71). -/
def tokenFor (ty : String) : List Char :=
  '<' :: ty.toList ++ ['>']

/-- `anonymizer.js` `anonymize`, lines 69-81: the right-to-left replacement
loop.  The source iterates `i` from the last resolved entity down to the
first, splicing `result.substring(0, e.start) + token + result.substring(e.end)`
and `unshift`-ing the manifest entry; recursing on the tail first processes
the later entities first, exactly as the source does. -/
def annoLoop (ents : List DetectedEntity) (res : List Char) :
    List Char × List ManifestEntry :=
  match ents with
  | [] => (res, [])
  | e :: rest =>
    let (res1, man1) := annoLoop rest res
    let token := tokenFor e.entity_type
    (res1.take e.start ++ token ++ res1.drop e.stop,
      { entity_type := e.entity_type
        start := e.start
        stop := e.start + token.length
        score := e.score
        original_text := e.original_text
        new_value := token } :: man1)

/-- `anonymizer.js` `anonymize` (lines 58-84). -/
def anonymize (text : List Char) (entities : List DetectedEntity) :
    AnonymizeResult :=
  if entities.length = 0 then
    { text := text, entities := [], count := 0 }
  else
    let resolved := resolveOverlaps entities
    let (result, manifest) := annoLoop resolved text
    { text := result, entities := manifest, count := manifest.length }

/-! ### `validators.js` -/

/-- JS `num.replace(/\D/g, "")`: keep only the decimal digit characters. -/
def stripNonDigits (num : List Char) : List Char :=
  num.filter Char.isDigit

/-- JS `parseInt(c, 10)` on a single digit character. -/
def digitVal (c : Char) : Nat := c.toNat - 48

/-- `validators.js` `luhn`, lines 16-26: the summation loop.  The source
iterates `i` from the last digit down to index 0 with the doubling flag
`alt` starting at `false`; this recursion processes the reversed digit list
with the same flag. -/
def luhnLoop : List Char → Bool → Nat
  | [], _ => 0
  | c :: rest, alt =>
    let d := digitVal c
    (if alt then (if d * 2 > 9 then d * 2 - 9 else d * 2) else d) + luhnLoop rest (!alt)

/-- `validators.js` `luhn` (lines 12-28). -/
def luhn (num : List Char) : Bool :=
  let digits := stripNonDigits num
  if digits.length < 13 || digits.length > 19 then false
  else luhnLoop digits.reverse false % 10 == 0

/-- `validators.js` `_d` (lines 35-46): the Dihedral-5 multiplication table. -/
def vTableD : List (List Nat) :=
  [[0, 1, 2, 3, 4, 5, 6, 7, 8, 9],
   [1, 2, 3, 4, 0, 6, 7, 8, 9, 5],
   [2, 3, 4, 0, 1, 7, 8, 9, 5, 6],
   [3, 4, 0, 1, 2, 8, 9, 5, 6, 7],
   [4, 0, 1, 2, 3, 9, 5, 6, 7, 8],
   [5, 9, 8, 7, 6, 0, 4, 3, 2, 1],
   [6, 5, 9, 8, 7, 1, 0, 4, 3, 2],
   [7, 6, 5, 9, 8, 2, 1, 0, 4, 3],
   [8, 7, 6, 5, 9, 3, 2, 1, 0, 4],
   [9, 8, 7, 6, 5, 4, 3, 2, 1, 0]]

/-- `validators.js` `_p` (lines 48-57): the permutation table. -/
def vTableP : List (List Nat) :=
  [[0, 1, 2, 3, 4, 5, 6, 7, 8, 9],
   [1, 5, 7, 6, 2, 8, 3, 0, 9, 4],
   [5, 8, 0, 3, 7, 9, 6, 1, 4, 2],
   [8, 9, 1, 6, 0, 4, 3, 5, 2, 7],
   [9, 4, 5, 3, 1, 2, 6, 8, 7, 0],
   [4, 2, 8, 6, 5, 7, 3, 9, 0, 1],
   [2, 7, 9, 3, 8, 0, 6, 4, 1, 5],
   [7, 0, 4, 6, 9, 1, 3, 2, 5, 8]]

/-- `validators.js` `_inv` (line 59); defined in the source, unused by
`verhoeff`. -/
def vTableInv : List Nat := [0, 4, 3, 2, 1, 5, 6, 7, 8, 9]

/-- JS two-dimensional table access `t[r][x]`. -/
def tbl (t : List (List Nat)) (r x : Nat) : Nat :=
  (t.getD r []).getD x 0

/-- `validators.js` `verhoeff`, lines 73-77: the checksum fold over the
reversed digits.  `c` is the accumulator, `i` the position index, and each
step performs `c = _d[c][_p[i % 8][digit]]`. -/
def vloop (c i : Nat) : List Char → Nat
  | [] => c
  | ch :: rest => vloop (tbl vTableD c (tbl vTableP (i % 8) (digitVal ch))) (i + 1) rest

/-- `validators.js` `verhoeff` (lines 61-79). -/
def verhoeff (num : List Char) : Bool :=
  let digits := stripNonDigits num
  if digits.length ≠ 12 then false
  else if digitVal (digits.headD '0') < 2 then false
  else if digits == digits.reverse then false
  else vloop 0 0 digits.reverse == 0

/-- `validators.js` `validatePAN` (lines 85-87): the anchored test
`/^[A-Z]{5}\d{4}[A-Z]$/.test(pan)`, transcribed structurally: exactly
5 uppercase letters, then 4 digits, then 1 uppercase letter. -/
def validatePAN (pan : List Char) : Bool :=
  pan.length == 10 &&
    (pan.take 5).all (fun c => decide ('A' ≤ c) && decide (c ≤ 'Z')) &&
    ((pan.drop 5).take 4).all Char.isDigit &&
    (pan.drop 9).all (fun c => decide ('A' ≤ c) && decide (c ≤ 'Z'))

/-- `validators.js` `validateSSN` (lines 93-103). -/
def validateSSN (ssn : List Char) : Bool :=
  let digits := stripNonDigits ssn
  if digits.length ≠ 9 then false
  else
    let area := Nat.ofDigits 10 ((digits.take 3).map digitVal).reverse
    if area = 0 ∨ area = 666 ∨ area ≥ 900 then false
    else
      let group := Nat.ofDigits 10 (((digits.drop 3).take 2).map digitVal).reverse
      if group = 0 then false
      else
        let serial := Nat.ofDigits 10 (((digits.drop 5).take 4).map digitVal).reverse
        if serial = 0 then false
        else true

/-! ### Regular-expression syntax

The JS regex engine is a browser built-in; the pattern literals of
`regex-patterns.js` are transcribed into this small syntax.  `bnd` stands for
the zero-width word-boundary assertion `\b`; the matching relation below
gives it no restricting power (it matches the empty string anywhere), so the
relation over-approximates the JS language of each pattern — adequate for
negative results ("this string contains no match"), which are the only
regex-language facts the theorems use. -/

inductive RE where
  | fail
  | eps
  | cls (ranges : List (Char × Char))
  | seq (a b : RE)
  | alt (a b : RE)
  | star (a : RE)
  | bnd
  deriving Repr

/-- Character-class membership: `c` lies in one of the (inclusive) ranges. -/
def inRanges (rs : List (Char × Char)) (c : Char) : Bool :=
  rs.any (fun r => decide (r.1 ≤ c) && decide (c ≤ r.2))

/-- The strings matched by a regex (word boundaries over-approximated). -/
inductive Matches : RE → List Char → Prop where
  | eps : Matches .eps []
  | cls {rs : List (Char × Char)} {c : Char} :
      inRanges rs c = true → Matches (.cls rs) [c]
  | seq {a b : RE} {xs ys : List Char} :
      Matches a xs → Matches b ys → Matches (.seq a b) (xs ++ ys)
  | altL {a b : RE} {xs : List Char} : Matches a xs → Matches (.alt a b) xs
  | altR {a b : RE} {xs : List Char} : Matches b xs → Matches (.alt a b) xs
  | starNil {a : RE} : Matches (.star a) []
  | starCons {a : RE} {xs ys : List Char} :
      Matches a xs → Matches (.star a) ys → Matches (.star a) (xs ++ ys)
  | bnd : Matches .bnd []

/-- A single literal character. -/
def RE.chr (c : Char) : RE := .cls [(c, c)]

/-- A literal string. -/
def RE.lit (s : String) : RE :=
  s.toList.foldr (fun c r => .seq (.chr c) r) .eps

/-- `r{n}`: exactly `n` copies. -/
def RE.rep : Nat → RE → RE
  | 0, _ => .eps
  | n + 1, a => .seq a (RE.rep n a)

/-- `r+`. -/
def RE.plus (a : RE) : RE := .seq a (.star a)

/-- `r?`. -/
def RE.opt (a : RE) : RE := .alt a .eps

/-- `r{n,}`. -/
def RE.atLeast (n : Nat) (a : RE) : RE := .seq (RE.rep n a) (.star a)

/-- Alternation over a list of regexes. -/
def RE.altList (l : List RE) : RE := l.foldr .alt .fail

/-- `\d`. -/
def REdigit : RE := .cls [('0', '9')]

/-- `[A-Z]`. -/
def REupper : RE := .cls [('A', 'Z')]

/-- `[a-zA-Z]`. -/
def REalpha : RE := .cls [('a', 'z'), ('A', 'Z')]

/-- The ranges of JS `\s` (ASCII whitespace and no-break space; the remaining
Unicode space variants are irrelevant to every theorem below and omitted). -/
def wsRanges : List (Char × Char) :=
  [(' ', ' '), ('\t', '\t'), ('\n', '\n'), ('\r', '\r'),
   ('\x0b', '\x0b'), ('\x0c', '\x0c'), ('\u00A0', '\u00A0')]

/-- `[\s-]`. -/
def REwsDash : RE := .cls (wsRanges ++ [('-', '-')])

/-- `[\s.-]`. -/
def REwsDotDash : RE := .cls (wsRanges ++ [('.', '.'), ('-', '-')])

/-! ### `regex-patterns.js` -/

/-- `regex-patterns.js` lines 11-12: the UPI bank suffix alternation. -/
def UPI_SUFFIXES : List String :=
  ["ybl", "okhdfcbank", "okicici", "okaxis", "oksbi", "apl", "ibl", "sbi",
   "axisb", "icici", "hdfc", "paytm", "upi", "gpay", "phonepe", "freecharge",
   "airtel", "jio", "kotak", "barodampay", "dbs", "federal", "indus", "rbl",
   "yesbank", "citi", "hsbc", "sc", "idbi", "pnb", "bob", "canara", "unionbank"]

/-- `/\b[a-zA-Z0-9._%+-]+@[a-zA-Z0-9.-]+\.[a-zA-Z]{2,}\b/` (email). -/
def emailRE : RE :=
  .seq .bnd <| .seq (RE.plus (.cls [('a', 'z'), ('A', 'Z'), ('0', '9'),
      ('.', '.'), ('_', '_'), ('%', '%'), ('+', '+'), ('-', '-')])) <|
    .seq (RE.chr '@') <| .seq (RE.plus (.cls [('a', 'z'), ('A', 'Z'),
      ('0', '9'), ('.', '.'), ('-', '-')])) <|
    .seq (RE.chr '.') <| .seq (RE.atLeast 2 REalpha) .bnd

/-- `/(?:\+91[\s-]?)?[6-9]\d{4}[\s-]?\d{5}\b/` (Indian phone). -/
def phoneInRE : RE :=
  .seq (RE.opt (.seq (RE.lit "+91") (RE.opt REwsDash))) <|
    .seq (.cls [('6', '9')]) <| .seq (RE.rep 4 REdigit) <|
    .seq (RE.opt REwsDash) <| .seq (RE.rep 5 REdigit) .bnd

/-- `/(?:\+1[\s-]?)?\(?\d{3}\)?[\s.-]?\d{3}[\s.-]?\d{4}\b/` (US phone). -/
def phoneUsRE : RE :=
  .seq (RE.opt (.seq (RE.lit "+1") (RE.opt REwsDash))) <|
    .seq (RE.opt (RE.chr '(')) <| .seq (RE.rep 3 REdigit) <|
    .seq (RE.opt (RE.chr ')')) <| .seq (RE.opt REwsDotDash) <|
    .seq (RE.rep 3 REdigit) <| .seq (RE.opt REwsDotDash) <|
    .seq (RE.rep 4 REdigit) .bnd

/-- `/\b\d{4}[\s-]?\d{4}[\s-]?\d{4}[\s-]?\d{4}\b/` (credit card). -/
def creditCardRE : RE :=
  .seq .bnd <| .seq (RE.rep 4 REdigit) <| .seq (RE.opt REwsDash) <|
    .seq (RE.rep 4 REdigit) <| .seq (RE.opt REwsDash) <|
    .seq (RE.rep 4 REdigit) <| .seq (RE.opt REwsDash) <|
    .seq (RE.rep 4 REdigit) .bnd

/-- `/\b[2-9]\d{3}[\s-]?\d{4}[\s-]?\d{4}\b/` (Aadhaar). -/
def aadhaarRE : RE :=
  .seq .bnd <| .seq (.cls [('2', '9')]) <| .seq (RE.rep 3 REdigit) <|
    .seq (RE.opt REwsDash) <| .seq (RE.rep 4 REdigit) <|
    .seq (RE.opt REwsDash) <| .seq (RE.rep 4 REdigit) .bnd

/-- `/\b[A-Z]{5}\d{4}[A-Z]\b/` (PAN). -/
def panRE : RE :=
  .seq .bnd <| .seq (RE.rep 5 REupper) <| .seq (RE.rep 4 REdigit) <|
    .seq REupper .bnd

/-- `/\b\d{3}-\d{2}-\d{4}\b/` (US SSN). -/
def ssnRE : RE :=
  .seq .bnd <| .seq (RE.rep 3 REdigit) <| .seq (RE.chr '-') <|
    .seq (RE.rep 2 REdigit) <| .seq (RE.chr '-') <| .seq (RE.rep 4 REdigit) .bnd

/-- `(?:25[0-5]|2[0-4]\d|[01]?\d\d?)`: one IPv4 octet. -/
def ipOctetRE : RE :=
  .alt (.seq (RE.lit "25") (.cls [('0', '5')])) <|
    .alt (.seq (RE.chr '2') (.seq (.cls [('0', '4')]) REdigit)) <|
    .seq (RE.opt (.cls [('0', '1')])) (.seq REdigit (RE.opt REdigit))

/-- `/\b(?:(?:25[0-5]|2[0-4]\d|[01]?\d\d?)\.){3}(?:25[0-5]|2[0-4]\d|[01]?\d\d?)\b/`. -/
def ipRE : RE :=
  .seq .bnd <| .seq (RE.rep 3 (.seq ipOctetRE (RE.chr '.'))) <|
    .seq ipOctetRE .bnd

/-- `` new RegExp(`\\b[a-zA-Z0-9._-]+@(?:${UPI_SUFFIXES})\\b`, "g") `` (UPI). -/
def upiRE : RE :=
  .seq .bnd <| .seq (RE.plus (.cls [('a', 'z'), ('A', 'Z'), ('0', '9'),
      ('.', '.'), ('_', '_'), ('-', '-')])) <|
    .seq (RE.chr '@') <| .seq (RE.altList (UPI_SUFFIXES.map RE.lit)) .bnd

/-- `/\b[A-Z][1-9]\d{6}\b/` (Indian passport). -/
def passportRE : RE :=
  .seq .bnd <| .seq REupper <| .seq (.cls [('1', '9')]) <|
    .seq (RE.rep 6 REdigit) .bnd

/-- `regex-patterns.js` — `PIIPattern`: entity type, regex, optional
validator, base score, context keywords. -/
structure PIIPattern where
  entity : String
  regex : RE
  validate : Option (List Char → Bool)
  score : ℚ
  context : List String

/-- `regex-patterns.js` `PATTERNS` (lines 24-114). -/
def PATTERNS : List PIIPattern :=
  [{ entity := "EMAIL_ADDRESS", regex := emailRE, validate := none,
     score := 1, context := ["email", "mail", "contact", "send", "address"] },
   { entity := "PHONE_NUMBER", regex := phoneInRE,
     validate := some (fun m => decide ((stripNonDigits m).length ≥ 10)),
     score := mkRat 85 100,
     context := ["phone", "call", "mobile", "number", "contact", "tel", "whatsapp"] },
   { entity := "PHONE_NUMBER", regex := phoneUsRE,
     validate := some (fun m => decide ((stripNonDigits m).length ≥ 10)),
     score := mkRat 8 10, context := ["phone", "call", "number", "contact", "tel"] },
   { entity := "CREDIT_CARD", regex := creditCardRE, validate := some luhn,
     score := mkRat 95 100,
     context := ["card", "credit", "debit", "visa", "mastercard", "amex", "payment"] },
   { entity := "IN_AADHAAR", regex := aadhaarRE, validate := some verhoeff,
     score := mkRat 95 100, context := ["aadhaar", "aadhar", "uid", "uidai", "identity"] },
   { entity := "IN_PAN", regex := panRE, validate := some validatePAN,
     score := mkRat 9 10, context := ["pan", "income tax", "tax", "permanent account"] },
   { entity := "US_SSN", regex := ssnRE, validate := some validateSSN,
     score := mkRat 9 10, context := ["ssn", "social security", "social"] },
   { entity := "IP_ADDRESS", regex := ipRE, validate := none,
     score := mkRat 9 10, context := ["ip", "address", "server", "host", "network"] },
   { entity := "IN_UPI_ID", regex := upiRE, validate := none,
     score := mkRat 85 100,
     context := ["upi", "payment", "pay", "gpay", "phonepe", "paytm", "vpa"] },
   { entity := "IN_PASSPORT", regex := passportRE, validate := none,
     score := mkRat 7 10, context := ["passport", "travel", "visa", "immigration"] }]

/-- `regex-patterns.js` `contextBoost`, lines 126-129: the keyword loop
(`if (window.includes(word)) return 0.1;` and final `return 0`). -/
def boostLoop (window : List Char) : List String → ℚ
  | [] => 0
  | w :: rest => if w.toList <:+: window then mkRat 1 10 else boostLoop window rest

/-- `regex-patterns.js` `contextBoost` (lines 120-130).  `matchStart - 50`
under `Nat` truncation equals JS `Math.max(0, matchStart - 50)`. -/
def contextBoost (text : List Char) (matchStart matchEnd : Nat)
    (contextWords : List String) : ℚ :=
  if contextWords.length = 0 then 0
  else
    let windowStart := matchStart - 50
    let windowEnd := min text.length (matchEnd + 50)
    let window := (jsSubstring text windowStart windowEnd).map Char.toLower
    boostLoop window contextWords

/-! ### `detector.js`

A match enumeration `M : RE → List Char → List (Nat × List Char)` stands for
the JS global-regex `exec` loop of `detectWithRegex` (lines 22-28): for each
pattern it yields the `(match.index, match[0])` pairs in order.  The engine
itself is a browser built-in, so `M` is a parameter; claims about the
per-match processing hold for every `M`, and claims that need properties of
the matches state them as hypotheses on `M`. -/

/-- `detector.js` `detectWithRegex`, lines 30-45: the body of the match loop
for one pattern and one match.  Returns `none` when the match is discarded by
the validator (`if (pattern.validate && !pattern.validate(matchedText))
continue;`), otherwise the emitted entity with
`score = Math.min(1.0, pattern.score + boost)`. -/
def perMatch (text : List Char) (p : PIIPattern) (m : Nat × List Char) :
    Option DetectedEntity :=
  let matchedText := m.2
  let start := m.1
  let stop := start + matchedText.length
  if p.validate.isSome ∧ p.validate.getD (fun _ => true) matchedText = false then
    none
  else
    let boost := contextBoost text start stop p.context
    let score := jsMin 1 (qAdd p.score boost)
    some { entity_type := p.entity, start := start, stop := stop,
           score := score, original_text := matchedText }

/-- `detector.js` `detectWithRegex` (lines 17-50), generalized over the
pattern list it scans (the source iterates `for (const pattern of PATTERNS)`). -/
def detectWithRegexOn (pats : List PIIPattern)
    (M : RE → List Char → List (Nat × List Char)) (text : List Char) :
    List DetectedEntity :=
  pats.flatMap (fun p => (M p.regex text).filterMap (perMatch text p))

/-- `detector.js` `detectWithRegex` (lines 17-50). -/
def detectWithRegex (M : RE → List Char → List (Nat × List Char))
    (text : List Char) : List DetectedEntity :=
  detectWithRegexOn PATTERNS M text

/-- `detector.js` — one raw NER token, `{ entity: "B-PER", word: "John",
start, end, score }`.  The field `entity` models `token.entity ||
token.entity_group` (the tag string); `stop` embeds `end`. -/
structure NerToken where
  entity : String
  start : Nat
  stop : Nat
  score : ℚ
  deriving DecidableEq, Repr

/-- `detector.js` `mapNerResults`, lines 62-66: `TYPE_MAP`. -/
def TYPE_MAP (label : String) : Option String :=
  if label = "PER" then some "PERSON"
  else if label = "LOC" then some "LOCATION"
  else if label = "ORG" then some "ORGANIZATION"
  else none

/-- Flush the open entity: the emitted list of `if (currentEntity)
entities.push(currentEntity)`. -/
def flushEnt : Option DetectedEntity → List DetectedEntity
  | none => []
  | some c => [c]

/-- `detector.js` `mapNerResults`, lines 71-108: one iteration of the token
loop, generalized over the label map (the source uses `TYPE_MAP`).  Returns
the new `currentEntity` and the entities pushed during this iteration. -/
def nerStep (tmap : String → Option String) (text : List Char)
    (cur : Option DetectedEntity) (tok : NerToken) :
    Option DetectedEntity × List DetectedEntity :=
  let tag := tok.entity
  let pfx := tag.take 2
  let label := tag.drop 2
  match tmap label with
  | none => (none, flushEnt cur)
  | some ty =>
    if pfx = "B-" then
      (some { entity_type := ty, start := tok.start, stop := tok.stop,
              score := tok.score,
              original_text := jsSubstring text tok.start tok.stop },
        flushEnt cur)
    else
      match cur with
      | some c =>
        if pfx = "I-" ∧ ty = c.entity_type then
          (some { c with
              stop := tok.stop
              original_text := jsSubstring text c.start tok.stop
              score := jsMin c.score tok.score }, [])
        else (none, [c])
      | none => (none, [])

/-- The token loop of `mapNerResults` with the final flush (line 111). -/
def nerLoop (tmap : String → Option String) (text : List Char)
    (cur : Option DetectedEntity) : List NerToken → List DetectedEntity
  | [] => flushEnt cur
  | tok :: rest =>
    let step := nerStep tmap text cur tok
    step.2 ++ nerLoop tmap text step.1 rest

/-- `detector.js` `mapNerResults` (lines 59-114), generalized over the label
map. -/
def mapNerResultsOn (tmap : String → Option String) (nerResults : List NerToken)
    (text : List Char) : List DetectedEntity :=
  if nerResults.length = 0 then []
  else nerLoop tmap text none nerResults

/-- `detector.js` `mapNerResults` (lines 59-114). -/
def mapNerResults (nerResults : List NerToken) (text : List Char) :
    List DetectedEntity :=
  mapNerResultsOn TYPE_MAP nerResults text

/-- `detector.js` `detect` (lines 122-134); `nerResults = none` models the
`null` default. -/
def detect (M : RE → List Char → List (Nat × List Char)) (text : List Char)
    (nerResults : Option (List NerToken)) : AnonymizeResult :=
  let regexEntities := detectWithRegex M text
  let nerEntities := match nerResults with
    | some rs => mapNerResults rs text
    | none => []
  let allEntities := regexEntities ++ nerEntities
  anonymize text allEntities

/-! ### Caller-side entity-type configuration

Modelled from the spec: the configuration surface of §6 — "a mapping from
EntityTypeCode to boolean (enabled/disabled), supplied per call or per
session by the caller.  A disabled type causes its PatternRules to be skipped
in Tier-1 and its NER label mapping to be dropped in Tier-2 — filtering
happens before detection, not after."  No function of
`extension-lite/src/pii/` accepts such a mapping (the proxy's
`config.go` keeps a per-entity map but never routes it into this engine), so
the filtering step is modelled here from the spec's words and composed with
the embedded Tier-1/Tier-2 detectors. -/

/-- Modelled from the spec: skip the PatternRules of disabled types. -/
def enabledPatterns (enabled : String → Bool) : List PIIPattern :=
  PATTERNS.filter (fun p => enabled p.entity)

/-- Modelled from the spec: drop the NER label mapping of disabled types. -/
def enabledTypeMap (enabled : String → Bool) (label : String) : Option String :=
  match TYPE_MAP label with
  | some ty => if enabled ty then some ty else none
  | none => none

/-- Modelled from the spec: the candidate list of the detection pipeline with
a caller-supplied enable/disable configuration applied before detection. -/
def detectCandidatesConfigured (enabled : String → Bool)
    (M : RE → List Char → List (Nat × List Char)) (text : List Char)
    (nerResults : Option (List NerToken)) : List DetectedEntity :=
  detectWithRegexOn (enabledPatterns enabled) M text ++
    (match nerResults with
     | some rs => mapNerResultsOn (enabledTypeMap enabled) rs text
     | none => [])

/-- From the spec (§4.5): of the last-accepted entity and an overlapping
candidate, "keep whichever of the two has the higher score (ties broken by
longer span)"; when score and span length are both equal the spec leaves the
choice open and the last-accepted entity stays. -/
def specWinner (prev curr : DetectedEntity) : DetectedEntity :=
  if prev.score < curr.score then curr
  else if curr.score < prev.score then prev
  else if prev.stop - prev.start < curr.stop - curr.start then curr
  else prev

/-- From the spec (§4.5): the single left-to-right sweep keeping one
last-accepted entity, replacing it by the winner on overlap and appending
otherwise. -/
def specSweep (prev : DetectedEntity) : List DetectedEntity → List DetectedEntity
  | [] => [prev]
  | curr :: rest =>
    if curr.start < prev.stop then specSweep (specWinner prev curr) rest
    else prev :: specSweep curr rest

/-- From the spec (§4.5): sort by start ascending with ties by score
descending, then sweep. -/
def resolveSpec (entities : List DetectedEntity) : List DetectedEntity :=
  if entities.length ≤ 1 then entities
  else
    match List.insertionSort entRel entities with
    | [] => []
    | x :: xs => specSweep x xs

/-- Digits and `'@'`: the characters at least one of which every registry
pattern forces into any match, and which no placeholder token contains. -/
def digitAt : List (Char × Char) := [('0', '9'), ('@', '@')]

/-- Ranges inclusion: every character admitted by `rs` is admitted by `ps`
(an empty range is vacuously included). -/
def rangesSub (rs ps : List (Char × Char)) : Bool :=
  rs.all (fun r => decide (r.2 < r.1) ||
    ps.any (fun q => decide (q.1 ≤ r.1) && decide (r.2 ≤ q.2)))

/-- `mustContain ps r = true` certifies that every string matched by `r`
contains a character admitted by `ps` (sound by `mustContain_sound`). -/
def mustContain (ps : List (Char × Char)) : RE → Bool
  | .fail => true
  | .eps => false
  | .bnd => false
  | .cls rs => rangesSub rs ps
  | .seq a b => mustContain ps a || mustContain ps b
  | .alt a b => mustContain ps a && mustContain ps b
  | .star _ => false

/-- The doubled-digit adjustment of the standard Luhn algorithm: double the
digit and subtract 9 when the result exceeds 9. -/
def luhnDouble (d : Nat) : Nat := if d * 2 > 9 then d * 2 - 9 else d * 2

/-- The standard Luhn sum as the spec words it, on digit values listed from
the rightmost (index 0): every second digit from the right (odd index) is
doubled with the above-9 adjustment, the rest contribute unchanged. -/
def luhnSpecSum (ds : List Nat) : Nat :=
  (ds.enum.map (fun p => if p.1 % 2 = 1 then luhnDouble p.2 else p.2)).sum

instance : IsTotal DetectedEntity entRel where
  total a b := by
    simp only [entRel, entLE, Bool.or_eq_true, Bool.and_eq_true, beq_iff_eq,
      decide_eq_true_eq]
    rcases Nat.lt_trichotomy a.start b.start with h | h | h
    · exact Or.inl (Or.inl h)
    · rcases le_total b.score a.score with hs | hs
      · exact Or.inl (Or.inr ⟨h, hs⟩)
      · exact Or.inr (Or.inr ⟨h.symm, hs⟩)
    · exact Or.inr (Or.inl h)

instance : IsTrans DetectedEntity entRel where
  trans a b c hab hbc := by
    simp only [entRel, entLE, Bool.or_eq_true, Bool.and_eq_true, beq_iff_eq,
      decide_eq_true_eq] at hab hbc ⊢
    rcases hab with h1 | ⟨h1, hs1⟩
    · rcases hbc with h2 | ⟨h2, _⟩
      · exact Or.inl (lt_trans h1 h2)
      · exact Or.inl (h2 ▸ h1)
    · rcases hbc with h2 | ⟨h2, hs2⟩
      · exact Or.inl (h1 ▸ h2)
      · exact Or.inr ⟨h1.trans h2, le_trans hs2 hs1⟩

/-! ## Theorems

### C6 — the Luhn validator -/

theorem qAdd_eq_add (a b : ℚ) : qAdd a b = a + b := by
  rw [Rat.add_def]
  simp [qAdd, Rat.normalize_eq_mkRat]


theorem luhnLoop_eq_enumFrom (l : List Char) : ∀ k : Nat,
    luhnLoop l (decide (k % 2 = 1)) =
      ((List.enumFrom k l).map
        (fun p => if p.1 % 2 = 1 then luhnDouble (digitVal p.2) else digitVal p.2)).sum := by
  induction l with
  | nil => intro k; simp [luhnLoop]
  | cons c rest ih =>
    intro k
    by_cases hk : k % 2 = 1
    · have h1 : ¬((k + 1) % 2 = 1) := by omega
      have ih1 := ih (k + 1)
      rw [decide_eq_false h1] at ih1
      simp [luhnLoop, List.enumFrom_cons, hk, h1, ih1, luhnDouble]
    · have h1 : (k + 1) % 2 = 1 := by omega
      have ih1 := ih (k + 1)
      rw [decide_eq_true h1] at ih1
      simp [luhnLoop, List.enumFrom_cons, hk, h1, ih1, luhnDouble]

theorem luhnLoop_eq_specSum (l : List Char) :
    luhnLoop l false = luhnSpecSum (l.map digitVal) := by
  have h := luhnLoop_eq_enumFrom l 0
  have h0 : (decide ((0 : Nat) % 2 = 1)) = false := by decide
  rw [h0] at h
  rw [h]
  unfold luhnSpecSum
  rw [List.enum, List.enumFrom_map, List.map_map]
  refine congrArg List.sum (List.map_congr_left ?_)
  rintro ⟨i, ch⟩ _
  simp [Function.comp, Prod.map]

/-- **C6.**  For every input string `s`, `luhn s` returns `true` if and only
if, after stripping all non-digit characters, the remaining digit string has
length between 13 and 19 inclusive and the standard Luhn sum (doubling every
second digit from the right, subtracting 9 from doubled values above 9) is
divisible by 10; in particular `luhn "4111111111111111"` is `true` and
`luhn "4111111111111112"` is `false`. -/
theorem claim_C6_luhn :
    (∀ s : List Char,
      luhn s = true ↔
        13 ≤ (stripNonDigits s).length ∧ (stripNonDigits s).length ≤ 19 ∧
          luhnSpecSum (((stripNonDigits s).reverse).map digitVal) % 10 = 0) ∧
    luhn "4111111111111111".toList = true ∧
    luhn "4111111111111112".toList = false := by
  refine ⟨fun s => ?_, by decide, by decide⟩
  simp only [luhn, luhnLoop_eq_specSum]
  by_cases h13 : (stripNonDigits s).length < 13
  · simp [h13]
  · by_cases h19 : (stripNonDigits s).length > 19
    · simp [h13, h19]
    · simp [h13, h19]
      constructor
      · intro h
        exact ⟨by omega, by omega, h⟩
      · rintro ⟨-, -, h⟩
        exact h

/-! ### C7 — the Verhoeff validator -/

theorem digitVal_lt_ten (c : Char) (h : c.isDigit = true) : digitVal c < 10 := by
  simp [Char.isDigit] at h
  have h2 : c.val.toNat ≤ 57 := h.2
  have h3 : c.toNat = c.val.toNat := rfl
  simp only [digitVal]
  omega

theorem digit_char_inj (c d : Char) (hc : c.isDigit = true) (hd : d.isDigit = true)
    (h : digitVal c = digitVal d) : c = d := by
  simp [Char.isDigit] at hc hd
  have hc1 : (48 : Nat) ≤ c.val.toNat := hc.1
  have hc2 : c.val.toNat ≤ 57 := hc.2
  have hd1 : (48 : Nat) ≤ d.val.toNat := hd.1
  have hd2 : d.val.toNat ≤ 57 := hd.2
  have hv : c.val.toNat = d.val.toNat := by
    have e1 : c.toNat = c.val.toNat := rfl
    have e2 : d.toNat = d.val.toNat := rfl
    simp only [digitVal] at h
    omega
  exact Char.ext (UInt32.ext hv)

theorem tblD_lt : ∀ c < 10, ∀ x < 10, tbl vTableD c x < 10 := by decide

theorem tblD_inj : ∀ x < 10, ∀ c₁ < 10, ∀ c₂ < 10,
    tbl vTableD c₁ x = tbl vTableD c₂ x → c₁ = c₂ := by decide

theorem tblP_lt : ∀ k < 8, ∀ v < 10, tbl vTableP k v < 10 := by decide

set_option synthInstance.maxHeartbeats 400000 in
set_option synthInstance.maxSize 512 in
theorem vStep_inj : ∀ k < 8, ∀ c < 10, ∀ v₁ < 10, ∀ v₂ < 10, v₁ ≠ v₂ →
    tbl vTableD c (tbl vTableP k v₁) ≠ tbl vTableD c (tbl vTableP k v₂) := by decide

theorem vloop_lt (l : List Char) : ∀ c i, (∀ ch ∈ l, ch.isDigit = true) →
    c < 10 → vloop c i l < 10 := by
  induction l with
  | nil => intro c i _ hc; simpa [vloop] using hc
  | cons ch rest ih =>
    intro c i hall hc
    simp only [vloop]
    apply ih
    · intro x hx
      exact hall x (List.mem_cons_of_mem _ hx)
    · exact tblD_lt _ hc _
        (tblP_lt _ (Nat.mod_lt _ (by norm_num)) _
          (digitVal_lt_ten ch (hall ch (List.mem_cons_self _ _))))

theorem vloop_inj (l : List Char) : ∀ i c₁ c₂, (∀ ch ∈ l, ch.isDigit = true) →
    c₁ < 10 → c₂ < 10 → c₁ ≠ c₂ → vloop c₁ i l ≠ vloop c₂ i l := by
  induction l with
  | nil => intro i c₁ c₂ _ _ _ hne; simpa [vloop] using hne
  | cons ch rest ih =>
    intro i c₁ c₂ hall h1 h2 hne
    simp only [vloop]
    have hm : i % 8 < 8 := Nat.mod_lt _ (by norm_num)
    have hdv : digitVal ch < 10 :=
      digitVal_lt_ten ch (hall ch (List.mem_cons_self _ _))
    have hw : tbl vTableP (i % 8) (digitVal ch) < 10 := tblP_lt _ hm _ hdv
    apply ih
    · intro x hx
      exact hall x (List.mem_cons_of_mem _ hx)
    · exact tblD_lt _ h1 _ hw
    · exact tblD_lt _ h2 _ hw
    · intro he
      exact hne (tblD_inj _ hw _ h1 _ h2 he)

theorem vloop_append (xs ys : List Char) : ∀ c i,
    vloop c i (xs ++ ys) = vloop (vloop c i xs) (i + xs.length) ys := by
  induction xs with
  | nil => intro c i; simp [vloop]
  | cons x rest ih =>
    intro c i
    rw [List.cons_append]
    simp only [vloop, List.length_cons]
    rw [ih]
    have harith : i + 1 + rest.length = i + (rest.length + 1) := by omega
    rw [harith]

theorem vloop_change (pre post : List Char) (d d' : Char) (c i : Nat)
    (hall : ∀ ch ∈ pre ++ d :: post, ch.isDigit = true)
    (hd' : d'.isDigit = true) (hne : d ≠ d') (hc : c < 10) :
    vloop c i (pre ++ d :: post) ≠ vloop c i (pre ++ d' :: post) := by
  rw [vloop_append, vloop_append]
  have hallpre : ∀ ch ∈ pre, ch.isDigit = true :=
    fun ch hx => hall ch (List.mem_append_left _ hx)
  have hallpost : ∀ ch ∈ post, ch.isDigit = true :=
    fun ch hx => hall ch (List.mem_append_right _ (List.mem_cons_of_mem _ hx))
  have hdd : d.isDigit = true := hall d (List.mem_append_right _ (List.mem_cons_self _ _))
  have hcml : vloop c i pre < 10 := vloop_lt pre c i hallpre hc
  simp only [vloop]
  have hkm : (i + pre.length) % 8 < 8 := Nat.mod_lt _ (by norm_num)
  have hv1 : digitVal d < 10 := digitVal_lt_ten _ hdd
  have hv2 : digitVal d' < 10 := digitVal_lt_ten _ hd'
  have hvne : digitVal d ≠ digitVal d' := fun he => hne (digit_char_inj _ _ hdd hd' he)
  exact vloop_inj post (i + pre.length + 1) _ _ hallpost
    (tblD_lt _ hcml _ (tblP_lt _ hkm _ hv1))
    (tblD_lt _ hcml _ (tblP_lt _ hkm _ hv2))
    (vStep_inj _ hkm _ hcml _ hv1 _ hv2 hvne)

theorem reverse_set (l : List Char) (n : Nat) (a : Char) (h : n < l.length) :
    (l.set n a).reverse = l.reverse.set (l.length - 1 - n) a := by
  apply List.ext_getElem
  · simp
  · intro i h1 h2
    simp only [List.getElem_reverse, List.getElem_set, List.length_set,
      List.length_reverse] at h1 h2 ⊢
    split
    · split
      · rfl
      · exfalso; omega
    · split
      · exfalso; omega
      · rfl

theorem verhoeff_eq_true_iff (s : List Char) :
    verhoeff s = true ↔
      ((stripNonDigits s).length = 12 ∧
        2 ≤ digitVal ((stripNonDigits s).headD '0') ∧
        stripNonDigits s ≠ (stripNonDigits s).reverse ∧
        vloop 0 0 (stripNonDigits s).reverse = 0) := by
  simp only [verhoeff]
  by_cases h1 : (stripNonDigits s).length = 12
  · by_cases h2 : digitVal ((stripNonDigits s).headD '0') < 2
    · simp [h1, h2]
    · by_cases h3 : stripNonDigits s = (stripNonDigits s).reverse
      · have hb : (stripNonDigits s == (stripNonDigits s).reverse) = true :=
          beq_iff_eq.mpr h3
        rw [if_neg (by simp [h1]), if_neg h2, if_pos hb]
        refine ⟨fun h => absurd h (by simp), ?_⟩
        rintro ⟨-, -, hne, -⟩
        exact absurd h3 hne
      · rw [not_lt] at h2
        simp [h1, h2, h3]
  · simp [h1]

/-- **C7.**  `verhoeff s` returns `true` iff, after stripping non-digits,
exactly 12 digits remain, the first is at least 2, the digit string is not a
palindrome, and the Dihedral-5 fold from the rightmost digit with
`c = D[c][P[pos mod 8][digit]]` ends at 0.  Consequently any palindromic
digit string and any string whose first digit is 0 or 1 yield `false`, and
changing any single digit of an accepted string yields `false`; the vector
`234567890124` is accepted. -/
theorem claim_C7_verhoeff :
    (∀ s : List Char,
      verhoeff s = true ↔
        ((stripNonDigits s).length = 12 ∧
          2 ≤ digitVal ((stripNonDigits s).headD '0') ∧
          stripNonDigits s ≠ (stripNonDigits s).reverse ∧
          vloop 0 0 (stripNonDigits s).reverse = 0)) ∧
    (∀ s : List Char, stripNonDigits s = (stripNonDigits s).reverse →
      verhoeff s = false) ∧
    (∀ s : List Char, digitVal ((stripNonDigits s).headD '0') < 2 →
      verhoeff s = false) ∧
    (∀ (s : List Char) (j : Nat) (c' : Char), verhoeff s = true →
      j < (stripNonDigits s).length → c'.isDigit = true →
      c' ≠ (stripNonDigits s).getD j '0' →
      verhoeff ((stripNonDigits s).set j c') = false) ∧
    verhoeff "234567890124".toList = true := by
  refine ⟨verhoeff_eq_true_iff, ?_, ?_, ?_, by decide⟩
  · intro s hpal
    cases hv : verhoeff s with
    | false => rfl
    | true =>
      obtain ⟨-, -, hne, -⟩ := (verhoeff_eq_true_iff s).mp hv
      exact absurd hpal hne
  · intro s hlt
    cases hv : verhoeff s with
    | false => rfl
    | true =>
      obtain ⟨-, hge, -, -⟩ := (verhoeff_eq_true_iff s).mp hv
      omega
  · intro s j c' hT hj hcd hne
    obtain ⟨hlen, hhead, hpal, hfold⟩ := (verhoeff_eq_true_iff s).mp hT
    have hall : ∀ ch ∈ stripNonDigits s, ch.isDigit = true :=
      fun ch hx => (List.mem_filter.mp hx).2
    have hall2 : ∀ ch ∈ (stripNonDigits s).set j c', ch.isDigit = true := by
      intro ch hx
      rcases List.mem_or_eq_of_mem_set hx with h | h
      · exact hall ch h
      · exact h ▸ hcd
    have hstrip2 : stripNonDigits ((stripNonDigits s).set j c') =
        (stripNonDigits s).set j c' := List.filter_eq_self.mpr hall2
    have hmlen : (stripNonDigits s).length - 1 - j <
        (stripNonDigits s).reverse.length := by
      simp only [List.length_reverse]
      omega
    have hrevset : ((stripNonDigits s).set j c').reverse =
        (stripNonDigits s).reverse.set ((stripNonDigits s).length - 1 - j) c' :=
      reverse_set _ _ _ hj
    have hdpos : (stripNonDigits s).reverse.getD
        ((stripNonDigits s).length - 1 - j) '0' = (stripNonDigits s).getD j '0' := by
      rw [List.getD_eq_getElem _ _ hmlen, List.getD_eq_getElem _ _ hj,
        List.getElem_reverse]
      congr 1
      omega
    have hsplit : (stripNonDigits s).reverse =
        (stripNonDigits s).reverse.take ((stripNonDigits s).length - 1 - j) ++
          (stripNonDigits s).getD j '0' ::
            (stripNonDigits s).reverse.drop ((stripNonDigits s).length - 1 - j + 1) := by
      conv_lhs => rw [← List.take_append_drop ((stripNonDigits s).length - 1 - j)
        (stripNonDigits s).reverse]
      rw [List.drop_eq_getElem_cons hmlen, ← List.getD_eq_getElem _ '0' hmlen, hdpos]
    have hsplit2 : (stripNonDigits s).reverse.set
        ((stripNonDigits s).length - 1 - j) c' =
        (stripNonDigits s).reverse.take ((stripNonDigits s).length - 1 - j) ++
          c' :: (stripNonDigits s).reverse.drop ((stripNonDigits s).length - 1 - j + 1) := by
      rw [List.set_eq_take_append_cons_drop, if_pos hmlen]
    have hallrev : ∀ ch ∈ (stripNonDigits s).reverse, ch.isDigit = true :=
      fun ch hx => hall ch (List.mem_reverse.mp hx)
    have hchange : vloop 0 0 (stripNonDigits s).reverse ≠
        vloop 0 0 ((stripNonDigits s).reverse.set
          ((stripNonDigits s).length - 1 - j) c') := by
      rw [hsplit2]
      conv_lhs => rw [hsplit]
      refine vloop_change _ _ _ _ 0 0 ?_ hcd (fun h => hne h.symm) (by norm_num)
      rw [← hsplit]
      exact hallrev
    cases hv : verhoeff ((stripNonDigits s).set j c') with
    | false => rfl
    | true =>
      obtain ⟨-, -, -, hfold2⟩ :=
        (verhoeff_eq_true_iff ((stripNonDigits s).set j c')).mp hv
      rw [hstrip2, hrevset] at hfold2
      rw [hfold] at hchange
      exact (hchange hfold2.symm).elim

/-- Witness for C6: the characterization instantiated on the accepted test
card number. -/
theorem claim_C6_luhn_witness :
    13 ≤ (stripNonDigits "4111111111111111".toList).length ∧
      (stripNonDigits "4111111111111111".toList).length ≤ 19 ∧
      luhnSpecSum (((stripNonDigits "4111111111111111".toList).reverse).map
        digitVal) % 10 = 0 :=
  (claim_C6_luhn.1 "4111111111111111".toList).mp claim_C6_luhn.2.1

/-- Witness for C7: changing the first digit of the accepted vector
`234567890124` from 2 to 3 is rejected. -/
theorem claim_C7_verhoeff_witness :
    verhoeff ((stripNonDigits "234567890124".toList).set 0 '3') = false :=
  claim_C7_verhoeff.2.2.2.1 "234567890124".toList 0 '3'
    claim_C7_verhoeff.2.2.2.2 (by decide) (by decide) (by decide)

/-! ### C2, C3 — the overlap resolver -/

theorem entRel_total : ∀ a b : DetectedEntity, entRel a b ∨ entRel b a := by
  intro a b
  simp only [entRel, entLE, Bool.or_eq_true, Bool.and_eq_true, beq_iff_eq,
    decide_eq_true_eq]
  rcases Nat.lt_trichotomy a.start b.start with h | h | h
  · exact Or.inl (Or.inl h)
  · rcases le_total b.score a.score with hs | hs
    · exact Or.inl (Or.inr ⟨h, hs⟩)
    · exact Or.inr (Or.inr ⟨h.symm, hs⟩)
  · exact Or.inr (Or.inl h)

theorem entRel_trans : ∀ a b c : DetectedEntity,
    entRel a b → entRel b c → entRel a c := by
  intro a b c hab hbc
  simp only [entRel, entLE, Bool.or_eq_true, Bool.and_eq_true, beq_iff_eq,
    decide_eq_true_eq] at hab hbc ⊢
  rcases hab with h1 | ⟨h1, hs1⟩
  · rcases hbc with h2 | ⟨h2, _⟩
    · exact Or.inl (lt_trans h1 h2)
    · exact Or.inl (h2 ▸ h1)
  · rcases hbc with h2 | ⟨h2, hs2⟩
    · exact Or.inl (h1 ▸ h2)
    · exact Or.inr ⟨h1.trans h2, le_trans hs2 hs1⟩

theorem entRel_start_le {a b : DetectedEntity} (h : entRel a b) :
    a.start ≤ b.start := by
  simp only [entRel, entLE, Bool.or_eq_true, Bool.and_eq_true, beq_iff_eq,
    decide_eq_true_eq] at h
  rcases h with h | ⟨h, -⟩
  · exact le_of_lt h
  · exact le_of_eq h

/-- The sweep of `resolveOverlaps` preserves: chained non-overlap, starts
sorted, all elements drawn from the input, and a non-empty result whose head
starts no earlier than the accumulator. -/
theorem sweep_inv (xs : List DetectedEntity) : ∀ prev : DetectedEntity,
    List.Pairwise (fun a b => a.start ≤ b.start) (prev :: xs) →
    (List.Chain' (fun a b => a.stop ≤ b.start) (sweep prev xs) ∧
     List.Pairwise (fun a b => a.start ≤ b.start) (sweep prev xs) ∧
     (∀ e ∈ sweep prev xs, e ∈ prev :: xs) ∧
     ∃ hd tl, sweep prev xs = hd :: tl ∧ prev.start ≤ hd.start) := by
  induction xs with
  | nil =>
    intro prev _
    exact ⟨List.chain'_singleton _, List.pairwise_singleton _ _,
      by simp [sweep], prev, [], rfl, le_refl _⟩
  | cons curr rest ih =>
    intro prev hp
    rw [List.pairwise_cons] at hp
    simp only [sweep]
    by_cases hov : curr.start < prev.stop
    · rw [if_pos hov]
      by_cases hrepl : curr.score > prev.score ∨
          (curr.score = prev.score ∧
            curr.stop - curr.start > prev.stop - prev.start)
      · rw [if_pos hrepl]
        have h2 := ih curr hp.2
        refine ⟨h2.1, h2.2.1, ?_, ?_⟩
        · intro e he
          rcases List.mem_cons.mp (h2.2.2.1 e he) with h | h
          · exact List.mem_cons_of_mem _ (by rw [h]; exact List.mem_cons_self _ _)
          · exact List.mem_cons_of_mem _ (List.mem_cons_of_mem _ h)
        · obtain ⟨hd, tl, heq, hle⟩ := h2.2.2.2
          exact ⟨hd, tl, heq,
            le_trans (hp.1 curr (List.mem_cons_self _ _)) hle⟩
      · rw [if_neg hrepl]
        have hp' : List.Pairwise (fun a b => a.start ≤ b.start) (prev :: rest) := by
          rw [List.pairwise_cons]
          exact ⟨fun a ha => hp.1 a (List.mem_cons_of_mem _ ha),
            (List.pairwise_cons.mp hp.2).2⟩
        have h2 := ih prev hp'
        refine ⟨h2.1, h2.2.1, ?_, h2.2.2.2⟩
        intro e he
        rcases List.mem_cons.mp (h2.2.2.1 e he) with h | h
        · exact by rw [h]; exact List.mem_cons_self _ _
        · exact List.mem_cons_of_mem _ (List.mem_cons_of_mem _ h)
    · rw [if_neg hov]
      obtain ⟨hch, hpw, hmem, hd, tl, heq, hle⟩ := ih curr hp.2
      refine ⟨?_, ?_, ?_, prev, sweep curr rest, rfl, le_refl _⟩
      · rw [heq, List.chain'_cons]
        exact ⟨le_trans (not_lt.mp hov) hle, heq ▸ hch⟩
      · rw [List.pairwise_cons]
        refine ⟨?_, hpw⟩
        intro a ha
        rcases List.mem_cons.mp (hmem a ha) with h | h
        · exact by rw [h]; exact hp.1 curr (List.mem_cons_self _ _)
        · exact hp.1 a (List.mem_cons_of_mem _ h)
      · intro e he
        rcases List.mem_cons.mp he with h | h
        · exact by rw [h]; exact List.mem_cons_self _ _
        · rcases List.mem_cons.mp (hmem e h) with h' | h'
          · exact List.mem_cons_of_mem _
              (by rw [h']; exact List.mem_cons_self _ _)
          · exact List.mem_cons_of_mem _ (List.mem_cons_of_mem _ h')

/-- Chained non-overlap plus sorted starts give pairwise non-overlap. -/
theorem pairwise_of_chain_sorted (l : List DetectedEntity)
    (hch : List.Chain' (fun a b => a.stop ≤ b.start) l)
    (hpw : List.Pairwise (fun a b => a.start ≤ b.start) l) :
    List.Pairwise (fun a b => a.stop ≤ b.start) l := by
  induction l with
  | nil => exact List.Pairwise.nil
  | cons a t ih =>
    rw [List.pairwise_cons]
    refine ⟨?_, ih hch.tail (List.pairwise_cons.mp hpw).2⟩
    intro b hb
    match t, hb with
    | hd :: t', hb =>
      have hab : a.stop ≤ hd.start := (List.chain'_cons.mp hch).1
      rcases List.mem_cons.mp hb with h | h
      · exact h ▸ hab
      · have hsb : hd.start ≤ b.start :=
          (List.pairwise_cons.mp (List.pairwise_cons.mp hpw).2).1 b h
        exact le_trans hab hsb

/-- **C2.**  For every input list of candidates, `resolveOverlaps` returns a
list that is pairwise non-overlapping (an earlier entity's `end` is at most a
later entity's `start`) and sorted by `start` ascending. -/
theorem claim_C2_resolveOverlaps (entities : List DetectedEntity) :
    List.Pairwise (fun a b => a.stop ≤ b.start) (resolveOverlaps entities) ∧
    List.Pairwise (fun a b => a.start ≤ b.start) (resolveOverlaps entities) := by
  unfold resolveOverlaps
  by_cases hlen : entities.length ≤ 1
  · rw [if_pos hlen]
    rcases entities with _ | ⟨a, _ | ⟨b, t⟩⟩
    · exact ⟨List.Pairwise.nil, List.Pairwise.nil⟩
    · exact ⟨List.pairwise_singleton _ _, List.pairwise_singleton _ _⟩
    · exfalso
      simp at hlen
  · rw [if_neg hlen]
    have hsorted : List.Pairwise entRel (List.insertionSort entRel entities) :=
      List.sorted_insertionSort entRel entities
    have hSB : List.Pairwise (fun a b : DetectedEntity => a.start ≤ b.start)
        (List.insertionSort entRel entities) :=
      hsorted.imp entRel_start_le
    rcases hs : List.insertionSort entRel entities with _ | ⟨x, xs⟩
    · exact ⟨List.Pairwise.nil, List.Pairwise.nil⟩
    · rw [hs] at hSB
      obtain ⟨hch, hpw, -, -⟩ := sweep_inv xs x hSB
      exact ⟨pairwise_of_chain_sorted _ hch hpw, hpw⟩

theorem sweep_eq_specSweep (xs : List DetectedEntity) : ∀ prev,
    sweep prev xs = specSweep prev xs := by
  induction xs with
  | nil => intro prev; rfl
  | cons curr rest ih =>
    intro prev
    simp only [sweep, specSweep]
    by_cases hov : curr.start < prev.stop
    · rw [if_pos hov, if_pos hov]
      by_cases hrepl : curr.score > prev.score ∨
          (curr.score = prev.score ∧
            curr.stop - curr.start > prev.stop - prev.start)
      · rw [if_pos hrepl, ih]
        have hw : specWinner prev curr = curr := by
          unfold specWinner
          rcases hrepl with h | ⟨heq, hlen⟩
          · rw [if_pos h]
          · rw [if_neg (by rw [heq]; exact lt_irrefl _),
              if_neg (by rw [heq]; exact lt_irrefl _), if_pos hlen]
        rw [hw]
      · rw [if_neg hrepl, ih]
        push_neg at hrepl
        have hw : specWinner prev curr = prev := by
          unfold specWinner
          by_cases hlt : curr.score < prev.score
          · rw [if_neg (not_lt.mpr (le_of_lt hlt)), if_pos hlt]
          · have heq : curr.score = prev.score :=
              le_antisymm hrepl.1 (not_lt.mp hlt)
            rw [if_neg (not_lt.mpr (le_of_eq heq)),
              if_neg (not_lt.mpr (le_of_eq heq.symm)),
              if_neg (not_lt.mpr (hrepl.2 heq))]
        rw [hw]
    · rw [if_neg hov, if_neg hov, ih]

/-- **C3.**  `resolveOverlaps` implements exactly the spec's greedy policy
(`resolveSpec`: sort by start ascending, ties by score descending, then a
single sweep replacing the last-accepted entity by the higher-scoring of the
two on overlap, ties broken by longer span); in particular of two
same-span candidates with scores 0.95 and 0.90 only the 0.95 one survives,
and of two equal-score candidates with span lengths 5 and 8 the length-8 one
survives. -/
theorem claim_C3_resolve_policy :
    (∀ entities : List DetectedEntity,
      resolveOverlaps entities = resolveSpec entities) ∧
    resolveOverlaps
        [⟨"A", 0, 5, mkRat 95 100, []⟩, ⟨"B", 0, 5, mkRat 9 10, []⟩] =
      [⟨"A", 0, 5, mkRat 95 100, []⟩] ∧
    resolveOverlaps
        [⟨"B", 0, 5, mkRat 9 10, []⟩, ⟨"A", 0, 5, mkRat 95 100, []⟩] =
      [⟨"A", 0, 5, mkRat 95 100, []⟩] ∧
    resolveOverlaps
        [⟨"A", 0, 5, mkRat 9 10, []⟩, ⟨"B", 0, 8, mkRat 9 10, []⟩] =
      [⟨"B", 0, 8, mkRat 9 10, []⟩] ∧
    resolveOverlaps
        [⟨"B", 0, 8, mkRat 9 10, []⟩, ⟨"A", 0, 5, mkRat 9 10, []⟩] =
      [⟨"B", 0, 8, mkRat 9 10, []⟩] := by
  refine ⟨fun entities => ?_, by decide, by decide, by decide, by decide⟩
  unfold resolveOverlaps resolveSpec
  by_cases hlen : entities.length ≤ 1
  · rw [if_pos hlen, if_pos hlen]
  · rw [if_neg hlen, if_neg hlen]
    rcases List.insertionSort entRel entities with _ | ⟨x, xs⟩
    · rfl
    · exact sweep_eq_specSweep xs x

/-! ### C4 — the NER result mapper -/

/-- **C4.**  An `I-` token extends the open entity exactly when its mapped
type equals the open entity's type — setting the end to the token's end,
recomputing the source substring, and taking the minimum score — and flushes
without opening otherwise; the stream
`[B-PER "John" .99][I-PER "Smith" .80][O]` yields the single PERSON
candidate "John Smith" with score `min(.99, .80) = .80` and nothing else. -/
theorem claim_C4_ner_extension :
    (∀ (text : List Char) (c : DetectedEntity) (tok : NerToken) (ty : String),
      tok.entity.take 2 = "I-" →
      TYPE_MAP (tok.entity.drop 2) = some ty →
      (ty = c.entity_type →
        nerStep TYPE_MAP text (some c) tok =
          (some { c with
              stop := tok.stop
              original_text := jsSubstring text c.start tok.stop
              score := jsMin c.score tok.score }, [])) ∧
      (ty ≠ c.entity_type →
        nerStep TYPE_MAP text (some c) tok = (none, [c]))) ∧
    mapNerResults
      [⟨"B-PER", 0, 4, mkRat 99 100⟩, ⟨"I-PER", 5, 10, mkRat 4 5⟩,
        ⟨"O", 10, 11, mkRat 1 2⟩]
      "John Smith.".toList =
      [⟨"PERSON", 0, 10, mkRat 4 5, "John Smith".toList⟩] ∧
    (mkRat 4 5 : ℚ) = 0.80 ∧
    jsMin (mkRat 99 100) (mkRat 4 5) = mkRat 4 5 := by
  refine ⟨?_, by decide, by norm_num [mkRat], by decide⟩
  intro text c tok ty hpfx hmap
  constructor
  · intro hty
    simp only [nerStep, hpfx, hmap]
    rw [if_neg (by decide : ¬("I-" : String) = "B-")]
    rw [if_pos ⟨trivial, hty⟩]
  · intro hty
    simp only [nerStep, hpfx, hmap]
    rw [if_neg (by decide : ¬("I-" : String) = "B-")]
    rw [if_neg (fun h => hty h.2)]

/-- Witness for C4: the extension equation at the spec's example token. -/
theorem claim_C4_ner_extension_witness :
    nerStep TYPE_MAP "John Smith.".toList
      (some ⟨"PERSON", 0, 4, mkRat 99 100, "John".toList⟩)
      ⟨"I-PER", 5, 10, mkRat 4 5⟩ =
      (some { entity_type := "PERSON", start := 0, stop := 10,
              score := jsMin (mkRat 99 100) (mkRat 4 5),
              original_text := jsSubstring "John Smith.".toList 0 10 }, []) :=
  (claim_C4_ner_extension.1 "John Smith.".toList
    ⟨"PERSON", 0, 4, mkRat 99 100, "John".toList⟩
    ⟨"I-PER", 5, 10, mkRat 4 5⟩ "PERSON" rfl rfl).1 rfl

/-! ### C5 — Tier-1 match processing and the context boost -/

theorem jsMin_eq_min (a b : ℚ) : jsMin a b = min a b := by
  rw [jsMin, min_def]

theorem boostLoop_mem_iff (window : List Char) (ws : List String) :
    (boostLoop window ws = mkRat 1 10 ↔
      ∃ w ∈ ws, w.toList <:+: window) ∧
    (boostLoop window ws = mkRat 1 10 ∨ boostLoop window ws = 0) := by
  induction ws with
  | nil =>
    have h0 : (0 : ℚ) ≠ mkRat 1 10 := by decide
    refine ⟨⟨fun h => absurd h h0, fun h => ?_⟩, Or.inr rfl⟩
    simp at h
  | cons w rest ih =>
    by_cases hw : w.toList <:+: window
    · have h1 : boostLoop window (w :: rest) = mkRat 1 10 := by
        unfold boostLoop
        rw [if_pos hw]
      exact ⟨⟨fun _ => ⟨w, List.mem_cons_self _ _, hw⟩, fun _ => h1⟩, Or.inl h1⟩
    · have h1 : boostLoop window (w :: rest) = boostLoop window rest := by
        rw [show boostLoop window (w :: rest) =
            (if w.toList <:+: window then mkRat 1 10 else boostLoop window rest)
          from rfl, if_neg hw]
      constructor
      · rw [h1, ih.1]
        constructor
        · rintro ⟨x, hx, hinf⟩
          exact ⟨x, List.mem_cons_of_mem _ hx, hinf⟩
        · rintro ⟨x, hx, hinf⟩
          rcases List.mem_cons.mp hx with h | h
          · exact absurd (h ▸ hinf) hw
          · exact ⟨x, h, hinf⟩
      · rw [h1]
        exact ih.2

/-- **C5.**  Tier-1 emits, for every pattern and every match the engine
reports, nothing when an attached validator rejects the matched substring
(hard gate), and otherwise exactly one candidate scored
`min(1, baseScore + boost)`; the boost is `0.1` precisely when some context
keyword occurs as a substring of the lower-cased window of 50 characters on
each side of the match clipped to the text bounds, and `0` otherwise. -/
theorem claim_C5_match_processing :
    (∀ (text : List Char) (M : RE → List Char → List (Nat × List Char)),
      detectWithRegex M text =
        PATTERNS.flatMap (fun p => (M p.regex text).filterMap (perMatch text p))) ∧
    (∀ (text m : List Char) (p : PIIPattern) (s : Nat),
      (∀ v, p.validate = some v → v m = false →
        perMatch text p (s, m) = none) ∧
      (∀ v, p.validate = some v → v m = true →
        perMatch text p (s, m) = some ⟨p.entity, s, s + m.length,
          min 1 (p.score + contextBoost text s (s + m.length) p.context), m⟩) ∧
      (p.validate = none →
        perMatch text p (s, m) = some ⟨p.entity, s, s + m.length,
          min 1 (p.score + contextBoost text s (s + m.length) p.context), m⟩)) ∧
    (∀ (text : List Char) (a b : Nat) (words : List String),
      (contextBoost text a b words = mkRat 1 10 ↔
        ∃ w ∈ words, w.toList <:+:
          (jsSubstring text (a - 50) (min text.length (b + 50))).map Char.toLower) ∧
      (contextBoost text a b words = mkRat 1 10 ∨
        contextBoost text a b words = 0)) ∧
    (mkRat 1 10 : ℚ) = 0.1 := by
  refine ⟨fun _ _ => rfl, ?_, ?_, by norm_num [mkRat]⟩
  · intro text m p s
    refine ⟨?_, ?_, ?_⟩
    · intro v hv hvm
      simp [perMatch, hv, hvm]
    · intro v hv hvm
      simp [perMatch, hv, hvm, jsMin_eq_min, qAdd_eq_add]
    · intro hv
      simp [perMatch, hv, jsMin_eq_min, qAdd_eq_add]
  · intro text a b words
    unfold contextBoost
    by_cases hlen : words.length = 0
    · rw [if_pos hlen]
      rw [List.length_eq_zero] at hlen
      subst hlen
      exact ⟨⟨fun h => absurd h (by decide), fun h => by simp at h⟩, Or.inr rfl⟩
    · rw [if_neg hlen]
      exact boostLoop_mem_iff _ words

/-- Witness for C5: the email pattern (no validator) emits its candidate at
the match of the running example. -/
theorem claim_C5_match_processing_witness :
    perMatch "Email john@example.com".toList
      { entity := "EMAIL_ADDRESS", regex := emailRE, validate := none,
        score := 1, context := ["email", "mail", "contact", "send", "address"] }
      (6, "john@example.com".toList) =
      some ⟨"EMAIL_ADDRESS", 6, 6 + "john@example.com".toList.length,
        min 1 ((1 : ℚ) + contextBoost "Email john@example.com".toList 6
          (6 + "john@example.com".toList.length)
          ["email", "mail", "contact", "send", "address"]),
        "john@example.com".toList⟩ :=
  (claim_C5_match_processing.2.1 "Email john@example.com".toList
    "john@example.com".toList
    { entity := "EMAIL_ADDRESS", regex := emailRE, validate := none,
      score := 1, context := ["email", "mail", "contact", "send", "address"] }
    6).2.2 rfl

/-! ### C9 — idempotence on already-redacted text -/

theorem mustContain_sound {ps : List (Char × Char)} {r : RE} {s : List Char}
    (hm : mustContain ps r = true) (hmat : Matches r s) :
    ∃ c ∈ s, inRanges ps c = true := by
  induction hmat with
  | eps => simp [mustContain] at hm
  | @cls rs c hin =>
    simp only [mustContain] at hm
    simp only [inRanges, List.any_eq_true, Bool.and_eq_true,
      decide_eq_true_eq] at hin
    obtain ⟨q, hq, h1, h2⟩ := hin
    simp only [rangesSub, List.all_eq_true, Bool.or_eq_true, List.any_eq_true,
      Bool.and_eq_true, decide_eq_true_eq] at hm
    rcases hm q hq with hemp | ⟨q', hq', hle1, hle2⟩
    · exact absurd (le_trans h1 h2) (not_le.mpr hemp)
    · refine ⟨c, List.mem_singleton.mpr rfl, ?_⟩
      simp only [inRanges, List.any_eq_true, Bool.and_eq_true,
        decide_eq_true_eq]
      exact ⟨q', hq', le_trans hle1 h1, le_trans h2 hle2⟩
  | @seq a b xs ys hma hmb iha ihb =>
    simp only [mustContain, Bool.or_eq_true] at hm
    rcases hm with h | h
    · obtain ⟨c, hc, hcr⟩ := iha h
      exact ⟨c, List.mem_append_left _ hc, hcr⟩
    · obtain ⟨c, hc, hcr⟩ := ihb h
      exact ⟨c, List.mem_append_right _ hc, hcr⟩
  | @altL a b xs hma iha =>
    simp only [mustContain, Bool.and_eq_true] at hm
    exact iha hm.1
  | @altR a b xs hmb ihb =>
    simp only [mustContain, Bool.and_eq_true] at hm
    exact ihb hm.2
  | starNil => simp [mustContain] at hm
  | starCons => simp [mustContain] at hm
  | bnd => simp [mustContain] at hm

/-- **C9.**  No placeholder token `<ENTITY_TYPE>` of a registry pattern
contains a match of that pattern's regex: every pattern forces a digit or an
`'@'` into each match, and tokens contain neither, so re-running detection on
fully redacted text re-detects none of the produced placeholders. -/
theorem claim_C9_idempotent :
    ∀ p ∈ PATTERNS, ∀ mid : List Char, mid <:+: tokenFor p.entity →
      ¬ Matches p.regex mid := by
  intro p hp mid hinf hmat
  have hkey : mustContain digitAt p.regex = true ∧
      ∀ c ∈ tokenFor p.entity, inRanges digitAt c = false := by
    simp only [PATTERNS, List.mem_cons, List.not_mem_nil, or_false] at hp
    rcases hp with rfl | rfl | rfl | rfl | rfl | rfl | rfl | rfl | rfl | rfl <;>
      exact ⟨by decide, by decide⟩
  obtain ⟨c, hc, hcr⟩ := mustContain_sound hkey.1 hmat
  have hmem : c ∈ tokenFor p.entity := hinf.mem hc
  rw [hkey.2 c hmem] at hcr
  exact Bool.false_ne_true hcr

/-- Witness for C9: the full email placeholder never matches the email
pattern. -/
theorem claim_C9_idempotent_witness :
    ¬ Matches emailRE (tokenFor "EMAIL_ADDRESS") :=
  claim_C9_idempotent
    { entity := "EMAIL_ADDRESS", regex := emailRE, validate := none,
      score := 1, context := ["email", "mail", "contact", "send", "address"] }
    (List.mem_cons_self _ _) (tokenFor "EMAIL_ADDRESS") (List.infix_refl _)

/-! ### C10 — trivial pass-through -/

theorem patterns_mustContain : ∀ p ∈ PATTERNS,
    mustContain digitAt p.regex = true := by
  intro p hp
  simp only [PATTERNS, List.mem_cons, List.not_mem_nil, or_false] at hp
  rcases hp with rfl | rfl | rfl | rfl | rfl | rfl | rfl | rfl | rfl | rfl <;>
    decide

/-- **C10.**  When no pattern matches and no NER tokens are supplied the
pipeline returns the text unchanged with an empty manifest and count 0; on
the empty text this holds for every sound match enumeration (no pattern can
match inside the empty text), so empty input is a trivial success, never an
error. -/
theorem claim_C10_trivial :
    (∀ (M : RE → List Char → List (Nat × List Char)) (text : List Char),
      (∀ p ∈ PATTERNS, M p.regex text = []) →
      detect M text none = ⟨text, [], 0⟩) ∧
    (∀ M : RE → List Char → List (Nat × List Char),
      (∀ p ∈ PATTERNS, ∀ sm ∈ M p.regex ([] : List Char),
        sm.2 <:+: ([] : List Char) ∧ Matches p.regex sm.2) →
      detect M [] none = ⟨[], [], 0⟩) := by
  have main : ∀ (M : RE → List Char → List (Nat × List Char)) (text : List Char),
      (∀ p ∈ PATTERNS, M p.regex text = []) →
      detect M text none = ⟨text, [], 0⟩ := by
    intro M text hM
    have h1 : detectWithRegex M text = [] := by
      unfold detectWithRegex detectWithRegexOn
      rw [List.flatMap_eq_nil_iff]
      intro p hp
      rw [hM p hp]
      rfl
    simp [detect, h1, anonymize]
  refine ⟨main, fun M hM => main M [] ?_⟩
  intro p hp
  rw [List.eq_nil_iff_forall_not_mem]
  intro sm hsm
  obtain ⟨hinf, hmat⟩ := hM p hp sm hsm
  have hnil : sm.2 = [] := List.sublist_nil.mp hinf.sublist
  rw [hnil] at hmat
  obtain ⟨c, hc, -⟩ := mustContain_sound (patterns_mustContain p hp) hmat
  exact List.not_mem_nil c hc

/-- Witness for C10: the enumeration reporting no matches leaves a word
untouched, and the empty text is a trivial success. -/
theorem claim_C10_trivial_witness :
    detect (fun _ _ => []) "hello".toList none = ⟨"hello".toList, [], 0⟩ ∧
    detect (fun _ _ => []) [] none = ⟨[], [], 0⟩ :=
  ⟨claim_C10_trivial.1 (fun _ _ => []) "hello".toList (fun _ _ => rfl),
   claim_C10_trivial.2 (fun _ _ => []) (fun _ _ sm hsm => absurd hsm
     (List.not_mem_nil sm))⟩

/-! ### C8 — caller-side type filtering (modelled from the spec) -/

theorem perMatch_entity {text : List Char} {p : PIIPattern}
    {m : Nat × List Char} {e : DetectedEntity}
    (h : perMatch text p m = some e) : e.entity_type = p.entity := by
  simp only [perMatch] at h
  split at h
  · exact absurd h (by simp)
  · simp only [Option.some.injEq] at h
    rw [← h]

theorem enabledTypeMap_enabled {enabled : String → Bool} {l ty : String}
    (h : enabledTypeMap enabled l = some ty) : enabled ty = true := by
  unfold enabledTypeMap at h
  cases hT : TYPE_MAP l with
  | none =>
    rw [hT] at h
    simp at h
  | some t =>
    rw [hT] at h
    dsimp only at h
    by_cases he : enabled t = true
    · rw [if_pos he] at h
      injection h with h2
      rw [← h2]
      exact he
    · rw [if_neg he] at h
      simp at h

theorem nerStep_eq_unmapped (tmap : String → Option String) (text : List Char)
    (cur : Option DetectedEntity) (tok : NerToken)
    (hT : tmap (tok.entity.drop 2) = none) :
    nerStep tmap text cur tok = (none, flushEnt cur) := by
  unfold nerStep
  dsimp only
  rw [hT]

theorem nerStep_eq_begin (tmap : String → Option String) (text : List Char)
    (cur : Option DetectedEntity) (tok : NerToken) (ty : String)
    (hT : tmap (tok.entity.drop 2) = some ty)
    (hB : tok.entity.take 2 = "B-") :
    nerStep tmap text cur tok =
      (some { entity_type := ty, start := tok.start, stop := tok.stop,
              score := tok.score,
              original_text := jsSubstring text tok.start tok.stop },
        flushEnt cur) := by
  unfold nerStep
  dsimp only
  rw [hT]
  dsimp only
  rw [if_pos hB]

theorem nerStep_eq_extend (tmap : String → Option String) (text : List Char)
    (c : DetectedEntity) (tok : NerToken) (ty : String)
    (hT : tmap (tok.entity.drop 2) = some ty)
    (hB : ¬tok.entity.take 2 = "B-")
    (hI : tok.entity.take 2 = "I-" ∧ ty = c.entity_type) :
    nerStep tmap text (some c) tok =
      (some { c with
          stop := tok.stop
          original_text := jsSubstring text c.start tok.stop
          score := jsMin c.score tok.score }, []) := by
  unfold nerStep
  dsimp only
  rw [hT]
  dsimp only
  rw [if_neg hB, if_pos hI]

theorem nerStep_eq_flush (tmap : String → Option String) (text : List Char)
    (c : DetectedEntity) (tok : NerToken) (ty : String)
    (hT : tmap (tok.entity.drop 2) = some ty)
    (hB : ¬tok.entity.take 2 = "B-")
    (hI : ¬(tok.entity.take 2 = "I-" ∧ ty = c.entity_type)) :
    nerStep tmap text (some c) tok = (none, [c]) := by
  unfold nerStep
  dsimp only
  rw [hT]
  dsimp only
  rw [if_neg hB, if_neg hI]

theorem nerStep_eq_skip (tmap : String → Option String) (text : List Char)
    (tok : NerToken) (ty : String)
    (hT : tmap (tok.entity.drop 2) = some ty)
    (hB : ¬tok.entity.take 2 = "B-") :
    nerStep tmap text none tok = (none, []) := by
  unfold nerStep
  dsimp only
  rw [hT]
  dsimp only
  rw [if_neg hB]

theorem nerStep_out_types (tmap : String → Option String) (text : List Char)
    (cur : Option DetectedEntity) (tok : NerToken)
    (hcur : ∀ c, cur = some c → ∃ l, tmap l = some c.entity_type) :
    (∀ c, (nerStep tmap text cur tok).1 = some c →
      ∃ l, tmap l = some c.entity_type) ∧
    (∀ e ∈ (nerStep tmap text cur tok).2, ∃ l, tmap l = some e.entity_type) := by
  have hflush : ∀ e ∈ flushEnt cur, ∃ l, tmap l = some e.entity_type := by
    intro e he
    cases cur with
    | none => cases he
    | some c =>
      rcases List.mem_singleton.mp he with rfl
      exact hcur e rfl
  cases hT : tmap (tok.entity.drop 2) with
  | none =>
    rw [nerStep_eq_unmapped tmap text cur tok hT]
    exact ⟨fun c hc => by simp at hc, hflush⟩
  | some ty =>
    by_cases hB : tok.entity.take 2 = "B-"
    · rw [nerStep_eq_begin tmap text cur tok ty hT hB]
      refine ⟨?_, hflush⟩
      intro c hc
      injection hc with h2
      rw [← h2]
      exact ⟨tok.entity.drop 2, hT⟩
    · cases cur with
      | none =>
        rw [nerStep_eq_skip tmap text tok ty hT hB]
        exact ⟨fun c hc => by simp at hc, fun e he => by cases he⟩
      | some c =>
        by_cases hI : tok.entity.take 2 = "I-" ∧ ty = c.entity_type
        · rw [nerStep_eq_extend tmap text c tok ty hT hB hI]
          refine ⟨?_, fun e he => by cases he⟩
          intro c' hc'
          injection hc' with h2
          rw [← h2]
          exact hcur c rfl
        · rw [nerStep_eq_flush tmap text c tok ty hT hB hI]
          refine ⟨fun c' hc' => by simp at hc', ?_⟩
          intro e he
          rcases List.mem_singleton.mp he with rfl
          exact hcur e rfl

theorem nerLoop_types (tmap : String → Option String) (text : List Char) :
    ∀ (toks : List NerToken) (cur : Option DetectedEntity),
    (∀ c, cur = some c → ∃ l, tmap l = some c.entity_type) →
    ∀ e ∈ nerLoop tmap text cur toks, ∃ l, tmap l = some e.entity_type := by
  intro toks
  induction toks with
  | nil =>
    intro cur hcur e he
    cases cur with
    | none => cases he
    | some c =>
      rcases List.mem_singleton.mp he with rfl
      exact hcur e rfl
  | cons tok rest ih =>
    intro cur hcur e he
    simp only [nerLoop] at he
    obtain ⟨hcur1, hout⟩ := nerStep_out_types tmap text cur tok hcur
    rcases List.mem_append.mp he with h | h
    · exact hout e h
    · exact ih _ hcur1 e h

theorem mapNerResultsOn_types (tmap : String → Option String)
    (toks : List NerToken) (text : List Char) :
    ∀ e ∈ mapNerResultsOn tmap toks text, ∃ l, tmap l = some e.entity_type := by
  unfold mapNerResultsOn
  by_cases h : toks.length = 0
  · rw [if_pos h]
    intro e he
    cases he
  · rw [if_neg h]
    exact nerLoop_types tmap text toks none (fun c hc => by cases hc)

/-- **C8.**  Modelled from the spec (§6): with a caller-supplied
configuration applied before detection — disabled types' PatternRules
skipped in Tier-1, disabled NER label mappings dropped in Tier-2 — a
disabled entity type never appears among the produced candidates; in
particular disabling `US_SSN` yields zero `US_SSN` candidates on any text. -/
theorem claim_C8_disabled_type :
    (∀ (enabled : String → Bool) (M : RE → List Char → List (Nat × List Char))
        (text : List Char) (nerResults : Option (List NerToken)) (ty : String),
      enabled ty = false →
      ∀ e ∈ detectCandidatesConfigured enabled M text nerResults,
        e.entity_type ≠ ty) ∧
    (∀ (enabled : String → Bool) (M : RE → List Char → List (Nat × List Char))
        (text : List Char) (nerResults : Option (List NerToken)),
      enabled "US_SSN" = false →
      (detectCandidatesConfigured enabled M text nerResults).filter
        (fun e => e.entity_type == "US_SSN") = []) := by
  have main : ∀ (enabled : String → Bool)
      (M : RE → List Char → List (Nat × List Char))
      (text : List Char) (nerResults : Option (List NerToken)) (ty : String),
      enabled ty = false →
      ∀ e ∈ detectCandidatesConfigured enabled M text nerResults,
        e.entity_type ≠ ty := by
    intro enabled M text nerResults ty hdis e he hEq
    unfold detectCandidatesConfigured at he
    rcases List.mem_append.mp he with h | h
    · obtain ⟨p, hp, hm⟩ := List.mem_flatMap.mp h
      obtain ⟨sm, hsm, hpm⟩ := List.mem_filterMap.mp hm
      have h1 : e.entity_type = p.entity := perMatch_entity hpm
      have h2 : enabled p.entity = true := (List.mem_filter.mp hp).2
      rw [← hEq, h1, h2] at hdis
      cases hdis
    · rcases nerResults with _ | toks
      · cases h
      · obtain ⟨l, hl⟩ := mapNerResultsOn_types (enabledTypeMap enabled) toks text e h
        have h2 := enabledTypeMap_enabled hl
        rw [hEq, hdis] at h2
        cases h2
  refine ⟨main, ?_⟩
  intro enabled M text nerResults hdis
  rw [List.filter_eq_nil_iff]
  intro e he hbe
  exact main enabled M text nerResults "US_SSN" hdis e he (beq_iff_eq.mp hbe)

/-- Witness for C8: with `US_SSN` disabled no candidate of that type emerges
from a text carrying a structurally valid SSN. -/
theorem claim_C8_disabled_type_witness :
    (detectCandidatesConfigured (fun t => !(t == "US_SSN"))
        (fun _ t => [(0, t)]) "123-45-6789".toList none).filter
      (fun e => e.entity_type == "US_SSN") = [] :=
  claim_C8_disabled_type.2 (fun t => !(t == "US_SSN"))
    (fun _ t => [(0, t)]) "123-45-6789".toList none (by decide)

/-! ### C1 — manifest offsets on the spec's running example

The claim asserts every manifest entry carries the token's position in the
OUTPUT text.  The code records `start = e.start` (the entity's offset in the
ORIGINAL text) and `end = e.start + token.length`; because the email
replacement shortens the text by one character, the phone entry of the
running example records `[32, 46)` while its token occupies `[31, 45)` of the
45-character output — `end` even points past the end of the output. -/
theorem claim_C1_manifest_offsets_bug :
    (anonymize "Email john@example.com and call 9876543210".toList
        [⟨"EMAIL_ADDRESS", 6, 22, 1, "john@example.com".toList⟩,
         ⟨"PHONE_NUMBER", 32, 42, mkRat 95 100, "9876543210".toList⟩]).text =
      "Email <EMAIL_ADDRESS> and call <PHONE_NUMBER>".toList ∧
    (anonymize "Email john@example.com and call 9876543210".toList
        [⟨"EMAIL_ADDRESS", 6, 22, 1, "john@example.com".toList⟩,
         ⟨"PHONE_NUMBER", 32, 42, mkRat 95 100, "9876543210".toList⟩]).count = 2 ∧
    (anonymize "Email john@example.com and call 9876543210".toList
        [⟨"EMAIL_ADDRESS", 6, 22, 1, "john@example.com".toList⟩,
         ⟨"PHONE_NUMBER", 32, 42, mkRat 95 100, "9876543210".toList⟩]).entities.map
      (fun m => (m.entity_type, m.start, m.stop)) =
      [("EMAIL_ADDRESS", 6, 21), ("PHONE_NUMBER", 32, 46)] ∧
    (anonymize "Email john@example.com and call 9876543210".toList
        [⟨"EMAIL_ADDRESS", 6, 22, 1, "john@example.com".toList⟩,
         ⟨"PHONE_NUMBER", 32, 42, mkRat 95 100, "9876543210".toList⟩]).text.length
      = 45 ∧
    jsSubstring
      (anonymize "Email john@example.com and call 9876543210".toList
        [⟨"EMAIL_ADDRESS", 6, 22, 1, "john@example.com".toList⟩,
         ⟨"PHONE_NUMBER", 32, 42, mkRat 95 100, "9876543210".toList⟩]).text
      31 45 = tokenFor "PHONE_NUMBER" ∧
    ¬(jsSubstring
      (anonymize "Email john@example.com and call 9876543210".toList
        [⟨"EMAIL_ADDRESS", 6, 22, 1, "john@example.com".toList⟩,
         ⟨"PHONE_NUMBER", 32, 42, mkRat 95 100, "9876543210".toList⟩]).text
      32 46 = tokenFor "PHONE_NUMBER") := by
  decide

end PiiGuard
